import Mathlib

/-
A shallow embedding of a small CSV-backed SQL query engine: typed cell
values with lenient text inference, a pull-based operator pipeline
(sequential scan, selection, projection), a recursive expression
evaluator, a planner lowering one parsed SELECT statement into an
operator tree, and the driver loop over parsed statements.

Process aborts (Rust panics via expect, unwrap, unimplemented and
unreachable) are modelled with Except.error; the message mirrors the
panic message.  End of relation is Option.none.  Mutable iterator state
is passed explicitly: each call to next returns the produced item
together with the updated relation state and the list of diagnostic
messages written to the error stream during the call.  The CSV reader
is modelled with its default strict configuration: a record whose field
count differs from the header is surfaced as an error result, and the
reader continues with the following record on the next call.
-/

namespace SimpleSql

/-- Typed cell values flowing between relational operators. -/
inductive Value where
  | String (s : String)
  | Boolean (b : Bool)
  | Integer (i : Int)
deriving DecidableEq

/-- Parsing of a boolean literal: exactly the strings true and false,
case-sensitively. -/
def parseBool (s : String) : Option Bool :=
  if s = "true" then some true
  else if s = "false" then some false
  else none

/-- Parsing of a signed 64-bit integer: an optional sign, then one or
more ASCII digits, with a range check against the i64 bounds. -/
def parseI64 (s : String) : Option Int :=
  let (neg, digits) :=
    match s.data with
    | '-' :: rest => (true, rest)
    | '+' :: rest => (false, rest)
    | rest => (false, rest)
  if digits.isEmpty then none
  else if digits.all (fun c => c.isDigit) then
    let n : Nat := digits.foldl (fun acc c => acc * 10 + (c.toNat - 48)) 0
    if neg then
      if (n : Int) ≤ 2 ^ 63 then some (-(n : Int)) else none
    else
      if (n : Int) ≤ 2 ^ 63 - 1 then some (n : Int) else none
  else none

/-- Text-to-Value inference used by the sequential scan: boolean
literal first, then integer literal, otherwise the original text kept
verbatim as a string. -/
def infer (s : String) : Value :=
  match parseBool s with
  | some boolean => .Boolean boolean
  | none =>
      match parseI64 s with
      | some integer => .Integer integer
      | none => .String s

/-- Truthiness coercion of a Value for use as a condition. -/
def eval_value_as_bool : Value → Bool
  | .Boolean b => b
  | .Integer i => decide (i ≠ 0)
  | .String s => decide (s.length > 0)

/-- Binary operators reaching the evaluator; other contains every
operator of the surface syntax that the evaluator does not support. -/
inductive BinaryOperator where
  | And
  | Or
  | Gt
  | other
deriving DecidableEq

/-- The consumed subset of SQL literal values consumed by the evaluator. -/
inductive Literal where
  | Boolean (b : Bool)
  | SingleQuotedString (s : String)
  | DoubleQuotedString (s : String)
  | Number (s : String)
deriving DecidableEq

/-- Expression AST: column reference, literal, or binary operation. -/
inductive Expr where
  | Identifier (value : String)
  | Value (literal : Literal)
  | BinaryOp (left : Expr) (op : BinaryOperator) (right : Expr)
deriving DecidableEq

/-- Select list targets: a bare identifier expression, an aliased
expression, or the bare wildcard. -/
inductive SelectItem where
  | UnnamedExpr (e : Expr)
  | ExprWithAlias (e : Expr) (a : String)
  | Wildcard
deriving DecidableEq

/-- First index at which the predicate holds, as with Iterator
position in the source. -/
def position (p : α → Bool) : List α → Option Nat
  | [] => none
  | a :: as => if p a then some 0 else (position p as).map (· + 1)

/-- Recursive expression evaluation against one row.  Both operands of
a binary operation are evaluated before the operator is examined. -/
def eval_expr_on_row : Expr → List String → List Value → Except String Value
  | .BinaryOp left op right, relation_attributes, row =>
      match eval_expr_on_row left relation_attributes row with
      | .error msg => .error msg
      | .ok left_value =>
          match eval_expr_on_row right relation_attributes row with
          | .error msg => .error msg
          | .ok right_value =>
              match op with
              | .And =>
                  .ok (.Boolean (eval_value_as_bool left_value && eval_value_as_bool right_value))
              | .Or =>
                  .ok (.Boolean (eval_value_as_bool left_value || eval_value_as_bool right_value))
              | .Gt =>
                  match left_value with
                  | .Integer left_int =>
                      match right_value with
                      | .Integer right_int => .ok (.Boolean (decide (left_int > right_int)))
                      | _ => .error "not implemented"
                  | _ => .error "not implemented"
              | .other => .error "not implemented"
  | .Identifier ident, relation_attributes, row =>
      match position (fun relation_attribute => relation_attribute == ident) relation_attributes with
      | some source_position =>
          match row[source_position]? with
          | some v => .ok v
          | none => .error "index out of bounds"
      | none => .error "called Option.unwrap on a None value"
  | .Value literal, _, _ =>
      match literal with
      | .Boolean b => .ok (.Boolean b)
      | .DoubleQuotedString s => .ok (.String s)
      | .SingleQuotedString s => .ok (.String s)
      | .Number s =>
          match parseI64 s with
          | some i => .ok (.Integer i)
          | none => .error "Could not parse number into i64."

/-- Underlying CSV data records as handed over by the CSV reader: a
structurally readable record with its fields, or a record the reader
itself rejects (for example invalid encoding), carrying the message it
reports. -/
inductive RawRecord where
  | ok (fields : List String)
  | err (msg : String)
deriving DecidableEq

/-- Message reported by the CSV reader for a record whose field count
differs from the header record. -/
def unequal_lengths_error (expected got : Nat) : String :=
  "CSV error: record with " ++ toString got ++
    " fields, but the previous record has " ++ toString expected ++ " fields"

/-- The operator tree: a sequential scan leaf over one CSV source
(header names plus remaining unread data records), a selection node, or
a projection node. -/
inductive Rel where
  | SequentialScan (headers : List String) (records : List RawRecord)
  | Selection (selection : Expr) (relation : Rel)
  | Projection (projected : List SelectItem) (relation : Rel)
deriving DecidableEq

/-- Number of data records still unread in the underlying scan, offset
by the operator nesting; an upper bound on how many pulls the relation
can still answer with a row. -/
def Rel.size : Rel → Nat
  | .SequentialScan _ records => records.length
  | .Selection _ relation => relation.size + 1
  | .Projection _ relation => relation.size + 1

/-- Mapping a fallible function over a list, stopping at the first
error, as the source loops do. -/
def mapExcept (f : α → Except String β) : List α → Except String (List β)
  | [] => .ok []
  | a :: as =>
      match f a with
      | .error msg => .error msg
      | .ok b =>
          match mapExcept f as with
          | .error msg => .error msg
          | .ok bs => .ok (b :: bs)

/-- Output column names contributed by one select item: the alias for
an aliased expression, the identifier for a bare identifier, the child
attribute list for the wildcard; any other shape aborts. -/
def attribute_names (child_attributes : Except String (List String)) :
    SelectItem → Except String (List String)
  | .ExprWithAlias _ a => .ok [a]
  | .UnnamedExpr (.Identifier ident) => .ok [ident]
  | .UnnamedExpr _ => .error "not implemented"
  | .Wildcard => child_attributes

/-- Ordered column-name list of a relation, recomputed on demand: scan
headers, unchanged delegation for selection, and per-item names for
projection. -/
def attributes : Rel → Except String (List String)
  | .SequentialScan headers _ => .ok headers
  | .Selection _ relation => attributes relation
  | .Projection projected relation =>
      let child_attributes := attributes relation
      (mapExcept (attribute_names child_attributes) projected).map List.flatten

/-- Copying of the cell at the current position of the named source
column, aborting on an unresolvable name or an out-of-range index. -/
def lookup_cell (relation_attributes : List String) (row : List Value)
    (name : String) : Except String Value :=
  match position (fun relation_attribute => relation_attribute == name) relation_attributes with
  | some source_position =>
      match row[source_position]? with
      | some v => .ok v
      | none => .error "index out of bounds"
  | none => .error "called Option.unwrap on a None value"

/-- Cells contributed by one select item to a projected row: the
wildcard expands over all current child attributes in child order; a
bare identifier copies the cell of the column of that name; an aliased
item looks the alias itself up among the child attributes. -/
def select_item_cells (relation_attributes : List String) (row : List Value) :
    SelectItem → Except String (List Value)
  | .Wildcard =>
      mapExcept (fun attr => lookup_cell relation_attributes row attr)
        relation_attributes
  | .ExprWithAlias _ a => (lookup_cell relation_attributes row a).map (fun v => [v])
  | .UnnamedExpr (.Identifier ident) =>
      (lookup_cell relation_attributes row ident).map (fun v => [v])
  | .UnnamedExpr _ => .error "internal error: entered unreachable code"

/-- One projected row built from the child row, target by target. -/
def project_row (projected : List SelectItem) (relation_attributes : List String)
    (row : List Value) : Except String (List Value) :=
  (mapExcept (select_item_cells relation_attributes row) projected).map List.flatten

/-- One pull on a relation, with explicit fuel bounding the number of
child pulls a selection may chain; Rel.next always supplies sufficient
fuel.  The result carries the produced row (none meaning end of
relation for this call), the updated operator state, and the
diagnostics written to the error stream during the call. -/
def nextF : Nat → Rel → Except String (Option (List Value) × Rel × List String)
  | 0, _ => .error "out of fuel"
  | _ + 1, .SequentialScan headers records =>
      match records with
      | [] => .ok (none, .SequentialScan headers [], [])
      | .ok fields :: rest =>
          if fields.length = headers.length then
            .ok (some (fields.map infer), .SequentialScan headers rest, [])
          else
            .ok (none, .SequentialScan headers rest,
              [unequal_lengths_error headers.length fields.length])
      | .err msg :: rest => .ok (none, .SequentialScan headers rest, [msg])
  | fuel + 1, .Selection selection relation =>
      match nextF fuel relation with
      | .error msg => .error msg
      | .ok (none, relation2, diag) => .ok (none, .Selection selection relation2, diag)
      | .ok (some relation_item, relation2, diag) =>
          match attributes relation2 with
          | .error msg => .error msg
          | .ok relation_attributes =>
              match eval_expr_on_row selection relation_attributes relation_item with
              | .error msg => .error msg
              | .ok condition =>
                  if eval_value_as_bool condition then
                    .ok (some relation_item, .Selection selection relation2, diag)
                  else
                    match nextF fuel (.Selection selection relation2) with
                    | .error msg => .error msg
                    | .ok (item, st, diag2) => .ok (item, st, diag ++ diag2)
  | fuel + 1, .Projection projected relation =>
      match attributes relation with
      | .error msg => .error msg
      | .ok relation_attributes =>
          match nextF fuel relation with
          | .error msg => .error msg
          | .ok (none, relation2, diag) => .ok (none, .Projection projected relation2, diag)
          | .ok (some relation_item, relation2, diag) =>
              match project_row projected relation_attributes relation_item with
              | .error msg => .error msg
              | .ok item => .ok (some item, .Projection projected relation2, diag)

/-- One pull on a relation: produce the next row or signal end of
relation, returning the updated state and emitted diagnostics. -/
def Rel.next (r : Rel) : Except String (Option (List Value) × Rel × List String) :=
  nextF (r.size + 1) r

/-- The driver loop collecting rows: pull until the first end-of-
relation signal, with fuel always sufficient via drain. -/
def drainF : Nat → Rel → Except String (List (List Value))
  | 0, _ => .error "out of fuel"
  | fuel + 1, r =>
      match r.next with
      | .error msg => .error msg
      | .ok (none, _, _) => .ok []
      | .ok (some row, st, _) =>
          match drainF fuel st with
          | .error msg => .error msg
          | .ok rows => .ok (row :: rows)

/-- All rows of a relation as consumed by the driver. -/
def drain (r : Rel) : Except String (List (List Value)) :=
  drainF (r.size + 1) r

/-- The named CSV sources available to the planner: a path maps to the
header names and raw data records of the file, or to none when the
path cannot be opened. -/
abbrev Filesystem : Type := (String → Option (List String × List RawRecord))

/-- A FROM-clause table factor: a dotted table name, or any other
(unsupported) factor shape. -/
inductive TableFactor where
  | Table (name : List String)
  | other
deriving DecidableEq

/-- A join attached to a FROM source; its content is never examined. -/
inductive Join where
  | mk
deriving DecidableEq

/-- One FROM source together with its joins. -/
structure TableWithJoins where
  relation : TableFactor
  joins : List Join
deriving DecidableEq

/-- The consumed shape of a parsed SELECT. -/
structure Select where
  projection : List SelectItem
  from_ : List TableWithJoins
  selection : Option Expr
deriving DecidableEq

/-- A query body: a select, or any other (unsupported) set expression. -/
inductive SetExpr where
  | SelectBody (select : Select)
  | other
deriving DecidableEq

/-- A parsed query. -/
structure Query where
  body : SetExpr
deriving DecidableEq

/-- A parsed statement: a query, or any non-query statement. -/
inductive Statement where
  | Query (query : Query)
  | other
deriving DecidableEq

/-- Construction of the scan leaf from a path, aborting when the path
cannot be opened as CSV. -/
def SequentialScan.from_path (fs : Filesystem) (path : String) : Except String Rel :=
  match fs path with
  | some (headers, records) => .ok (.SequentialScan headers records)
  | none => .error ("Could not create CSV-reader from path: " ++ path)

/-- The planner: take the first FROM source, reject joins on it, build
the scan from the dot-joined table name, wrap in a selection when a
WHERE clause is present, and wrap in a projection when the select list
is non-empty. -/
def query_as_relation (fs : Filesystem) (query : Query) : Except String Rel :=
  match query.body with
  | .SelectBody select =>
      match select.from_.head? with
      | none => .error "FROM must be provided."
      | some table_with_joins =>
          if table_with_joins.joins.isEmpty then
            match table_with_joins.relation with
            | .Table name =>
                match SequentialScan.from_path fs (String.intercalate "." name) with
                | .error msg => .error msg
                | .ok scan_relation =>
                    let relation :=
                      match select.selection with
                      | some selection => Rel.Selection selection scan_relation
                      | none => scan_relation
                    let relation :=
                      if select.projection.isEmpty then relation
                      else Rel.Projection select.projection relation
                    .ok relation
            | .other => .error "not implemented"
          else .error "JOIN is not supported."
  | .other => .error "not implemented"

/-- Rendering of one cell to CSV output text. -/
def render_value : Value → String
  | .String s => s
  | .Boolean b => if b then "true" else "false"
  | .Integer i => toString i

/-- Execution of one statement by the driver: plan, report the header,
stream all rows; any non-query statement aborts. -/
def run_statement (fs : Filesystem) :
    Statement → Except String (List String × List (List String))
  | .Query query =>
      match query_as_relation fs query with
      | .error msg => .error msg
      | .ok relation =>
          match attributes relation with
          | .error msg => .error msg
          | .ok attrs =>
              match drain relation with
              | .error msg => .error msg
              | .ok rows => .ok (attrs, rows.map (fun row => row.map render_value))
  | .other => .error "not implemented"

/-- The driver loop over all parsed statements, in order. -/
def run_statements (fs : Filesystem) (statements : List Statement) :
    Except String (List (List String × List (List String))) :=
  mapExcept (run_statement fs) statements

/-- Example source files: path t holds a CSV file with the single
header column a and one data record with the single field 1. -/
def exampleFs : Filesystem := fun path =>
  if path = "t" then some (["a"], [.ok ["1"]]) else none

/-- The statement SELECT star FROM t. -/
def qSelectStar : Query :=
  ⟨.SelectBody ⟨[.Wildcard], [⟨.Table ["t"], []⟩], none⟩⟩

/-- A SELECT whose FROM clause names two sources, the second of which
even carries a join. -/
def qTwoSources : Query :=
  ⟨.SelectBody ⟨[.Wildcard], [⟨.Table ["t"], []⟩, ⟨.Table ["u"], [.mk]⟩], none⟩⟩

theorem mapExcept_length {α β : Type} (f : α → Except String β) :
    ∀ (l : List α) (ys : List β), mapExcept f l = .ok ys → ys.length = l.length := by
  intro l
  induction l with
  | nil =>
      intro ys h
      simp only [mapExcept] at h
      injection h with h
      simp [← h]
  | cons a as ih =>
      intro ys h
      simp only [mapExcept] at h
      cases hfa : f a with
      | error msg => rw [hfa] at h; exact absurd h (by simp)
      | ok b =>
          rw [hfa] at h
          cases hms : mapExcept f as with
          | error msg => rw [hms] at h; exact absurd h (by simp)
          | ok bs =>
              rw [hms] at h
              injection h with h
              subst h
              simp [ih bs hms]

theorem mapExcept_ok_of_get {α β : Type} (f : α → Except String β) :
    ∀ (l : List α) (r : List β), l.length = r.length →
      (∀ (i : Nat) (h : i < l.length) (h' : i < r.length), f l[i] = .ok r[i]) →
      mapExcept f l = .ok r := by
  intro l
  induction l with
  | nil =>
      intro r hlen _
      cases r with
      | nil => rfl
      | cons v r' => simp at hlen
  | cons a as ih =>
      intro r hlen hget
      cases r with
      | nil => simp at hlen
      | cons v r' =>
          have h0 : f a = .ok v := hget 0 (by simp) (by simp)
          have hrec : mapExcept f as = .ok r' := by
            refine ih r' (by simpa using hlen) ?_
            intro i h h'
            have := hget (i + 1) (by simpa using Nat.succ_lt_succ h)
              (by simpa using Nat.succ_lt_succ h')
            simpa using this
          simp only [mapExcept, h0, hrec]

theorem position_lt {α : Type} (p : α → Bool) :
    ∀ (l : List α) (i : Nat), position p l = some i → i < l.length := by
  intro l
  induction l with
  | nil => intro i h; simp [position] at h
  | cons a as ih =>
      intro i h
      simp only [position] at h
      by_cases hp : p a
      · rw [if_pos hp] at h
        injection h with h
        simp [← h]
      · rw [if_neg hp] at h
        cases hj : position p as with
        | none => rw [hj] at h; simp at h
        | some j =>
            rw [hj] at h
            simp at h
            have := ih j hj
            simp
            omega

theorem position_self_nodup :
    ∀ (l : List String), l.Nodup → ∀ (i : Nat) (h : i < l.length),
      position (fun x => x == l[i]) l = some i := by
  intro l
  induction l with
  | nil => intro _ i h; simp at h
  | cons a as ih =>
      intro hnd i h
      rw [List.nodup_cons] at hnd
      cases i with
      | zero => simp [position]
      | succ i =>
          have hi : i < as.length := by simpa using h
          have hmem : as[i] ∈ as := List.getElem_mem hi
          have hne : ¬(a == as[i]) = true := by
            simp only [beq_iff_eq]
            intro hcontra
            exact hnd.1 (hcontra ▸ hmem)
          have : (a :: as)[i + 1] = as[i] := by simp
          rw [this]
          simp only [position, if_neg hne]
          rw [ih hnd.2 i hi]
          rfl

theorem nextF_size :
    ∀ (fuel : Nat) (r : Rel) (o : Option (List Value)) (st : Rel) (d : List String),
      nextF fuel r = .ok (o, st, d) →
      st.size ≤ r.size ∧ (∀ row, o = some row → st.size < r.size) := by
  intro fuel
  induction fuel with
  | zero => intro r o st d h; exact absurd h (by simp [nextF])
  | succ fuel ih =>
      intro r o st d h
      cases r with
      | SequentialScan headers records =>
          cases records with
          | nil =>
              simp only [nextF, Except.ok.injEq, Prod.mk.injEq] at h
              obtain ⟨rfl, rfl, rfl⟩ := h
              exact ⟨le_rfl, by simp⟩
          | cons rec rest =>
              cases rec with
              | ok fields =>
                  simp only [nextF] at h
                  by_cases hlen : fields.length = headers.length
                  · rw [if_pos hlen] at h
                    simp only [Except.ok.injEq, Prod.mk.injEq] at h
                    obtain ⟨rfl, rfl, rfl⟩ := h
                    constructor
                    · simp [Rel.size]
                    · intro row _
                      simp [Rel.size]
                  · rw [if_neg hlen] at h
                    simp only [Except.ok.injEq, Prod.mk.injEq] at h
                    obtain ⟨rfl, rfl, rfl⟩ := h
                    constructor
                    · simp [Rel.size]
                    · intro row hr
                      simp at hr
              | err msg =>
                  simp only [nextF, Except.ok.injEq, Prod.mk.injEq] at h
                  obtain ⟨rfl, rfl, rfl⟩ := h
                  constructor
                  · simp [Rel.size]
                  · intro row hr
                    simp at hr
      | Selection sel rel =>
          simp only [nextF] at h
          cases h1 : nextF fuel rel with
          | error msg => rw [h1] at h; exact absurd h (by simp)
          | ok t =>
              obtain ⟨o1, rel2, d1⟩ := t
              rw [h1] at h
              cases o1 with
              | none =>
                  simp only [Except.ok.injEq, Prod.mk.injEq] at h
                  obtain ⟨rfl, rfl, rfl⟩ := h
                  have ha := (ih rel none rel2 d1 h1).1
                  constructor
                  · simp only [Rel.size]
                    omega
                  · intro row hr
                    simp at hr
              | some row1 =>
                  simp only [] at h
                  cases h2 : attributes rel2 with
                  | error msg => exact absurd h (by simp [h2])
                  | ok attrs =>
                      simp only [h2] at h
                      cases h3 : eval_expr_on_row sel attrs row1 with
                      | error msg => exact absurd h (by simp [h3])
                      | ok v =>
                          simp only [h3] at h
                          by_cases h4 : eval_value_as_bool v
                          · rw [if_pos h4] at h
                            simp only [Except.ok.injEq, Prod.mk.injEq] at h
                            obtain ⟨rfl, rfl, rfl⟩ := h
                            have ha := (ih rel _ rel2 d1 h1).2 row1 rfl
                            constructor
                            · simp only [Rel.size]
                              omega
                            · intro row _
                              simp only [Rel.size]
                              omega
                          · rw [if_neg h4] at h
                            cases h5 : nextF fuel (.Selection sel rel2) with
                            | error msg => rw [h5] at h; exact absurd h (by simp)
                            | ok t2 =>
                                obtain ⟨o2, st2, d2⟩ := t2
                                rw [h5] at h
                                simp only [Except.ok.injEq, Prod.mk.injEq] at h
                                obtain ⟨rfl, rfl, rfl⟩ := h
                                have ha := (ih rel _ rel2 d1 h1).2 row1 rfl
                                have hb := ih (.Selection sel rel2) o2 st2 d2 h5
                                constructor
                                · have hb1 := hb.1
                                  simp only [Rel.size] at hb1 ⊢
                                  omega
                                · intro row hro
                                  have hb2 := hb.2 row hro
                                  simp only [Rel.size] at hb2 ⊢
                                  omega
      | Projection items rel =>
          simp only [nextF] at h
          cases h0 : attributes rel with
          | error msg => rw [h0] at h; exact absurd h (by simp)
          | ok relAttrs =>
              rw [h0] at h
              simp only [] at h
              cases h1 : nextF fuel rel with
              | error msg => exact absurd h (by simp [h1])
              | ok t =>
                  obtain ⟨o1, rel2, d1⟩ := t
                  rw [h1] at h
                  cases o1 with
                  | none =>
                      simp only [Except.ok.injEq, Prod.mk.injEq] at h
                      obtain ⟨rfl, rfl, rfl⟩ := h
                      have ha := (ih rel none rel2 d1 h1).1
                      constructor
                      · simp only [Rel.size]
                        omega
                      · intro row hr
                        simp at hr
                  | some row1 =>
                      simp only [] at h
                      cases h2 : project_row items relAttrs row1 with
                      | error msg => exact absurd h (by simp [h2])
                      | ok item =>
                          simp only [h2] at h
                          simp only [Except.ok.injEq, Prod.mk.injEq] at h
                          obtain ⟨rfl, rfl, rfl⟩ := h
                          have ha := (ih rel _ rel2 d1 h1).2 row1 rfl
                          constructor
                          · simp only [Rel.size]
                            omega
                          · intro row _
                            simp only [Rel.size]
                            omega

theorem nextF_attributes :
    ∀ (fuel : Nat) (r : Rel) (o : Option (List Value)) (st : Rel) (d : List String),
      nextF fuel r = .ok (o, st, d) → attributes st = attributes r := by
  intro fuel
  induction fuel with
  | zero => intro r o st d h; exact absurd h (by simp [nextF])
  | succ fuel ih =>
      intro r o st d h
      cases r with
      | SequentialScan headers records =>
          cases records with
          | nil =>
              simp only [nextF, Except.ok.injEq, Prod.mk.injEq] at h
              obtain ⟨rfl, rfl, rfl⟩ := h
              rfl
          | cons rec rest =>
              cases rec with
              | ok fields =>
                  simp only [nextF] at h
                  by_cases hlen : fields.length = headers.length
                  · rw [if_pos hlen] at h
                    simp only [Except.ok.injEq, Prod.mk.injEq] at h
                    obtain ⟨rfl, rfl, rfl⟩ := h
                    rfl
                  · rw [if_neg hlen] at h
                    simp only [Except.ok.injEq, Prod.mk.injEq] at h
                    obtain ⟨rfl, rfl, rfl⟩ := h
                    rfl
              | err msg =>
                  simp only [nextF, Except.ok.injEq, Prod.mk.injEq] at h
                  obtain ⟨rfl, rfl, rfl⟩ := h
                  rfl
      | Selection sel rel =>
          simp only [nextF] at h
          cases h1 : nextF fuel rel with
          | error msg => rw [h1] at h; exact absurd h (by simp)
          | ok t =>
              obtain ⟨o1, rel2, d1⟩ := t
              rw [h1] at h
              cases o1 with
              | none =>
                  simp only [Except.ok.injEq, Prod.mk.injEq] at h
                  obtain ⟨rfl, rfl, rfl⟩ := h
                  exact ih rel none rel2 d1 h1
              | some row1 =>
                  simp only [] at h
                  cases h2 : attributes rel2 with
                  | error msg => exact absurd h (by simp [h2])
                  | ok attrs =>
                      simp only [h2] at h
                      cases h3 : eval_expr_on_row sel attrs row1 with
                      | error msg => exact absurd h (by simp [h3])
                      | ok v =>
                          simp only [h3] at h
                          by_cases h4 : eval_value_as_bool v
                          · rw [if_pos h4] at h
                            simp only [Except.ok.injEq, Prod.mk.injEq] at h
                            obtain ⟨rfl, rfl, rfl⟩ := h
                            exact ih rel _ rel2 d1 h1
                          · rw [if_neg h4] at h
                            cases h5 : nextF fuel (.Selection sel rel2) with
                            | error msg => rw [h5] at h; exact absurd h (by simp)
                            | ok t2 =>
                                obtain ⟨o2, st2, d2⟩ := t2
                                rw [h5] at h
                                simp only [Except.ok.injEq, Prod.mk.injEq] at h
                                obtain ⟨rfl, rfl, rfl⟩ := h
                                have hrec := ih (.Selection sel rel2) o2 st2 d2 h5
                                have hch := ih rel _ rel2 d1 h1
                                exact hrec.trans hch
      | Projection items rel =>
          simp only [nextF] at h
          cases h0 : attributes rel with
          | error msg => rw [h0] at h; exact absurd h (by simp)
          | ok relAttrs =>
              rw [h0] at h
              simp only [] at h
              cases h1 : nextF fuel rel with
              | error msg => exact absurd h (by simp [h1])
              | ok t =>
                  obtain ⟨o1, rel2, d1⟩ := t
                  rw [h1] at h
                  cases o1 with
                  | none =>
                      simp only [Except.ok.injEq, Prod.mk.injEq] at h
                      obtain ⟨rfl, rfl, rfl⟩ := h
                      have hch := ih rel none rel2 d1 h1
                      simp only [attributes, hch]
                  | some row1 =>
                      simp only [] at h
                      cases h2 : project_row items relAttrs row1 with
                      | error msg => exact absurd h (by simp [h2])
                      | ok item =>
                          simp only [h2] at h
                          simp only [Except.ok.injEq, Prod.mk.injEq] at h
                          obtain ⟨rfl, rfl, rfl⟩ := h
                          have hch := ih rel _ rel2 d1 h1
                          simp only [attributes, hch]

theorem nextF_congr_aux :
    ∀ (n f1 f2 : Nat) (r : Rel), r.size ≤ n → r.size < f1 → r.size < f2 →
      nextF f1 r = nextF f2 r := by
  intro n
  induction n with
  | zero =>
      intro f1 f2 r hr h1 h2
      obtain ⟨g1, rfl⟩ : ∃ g, f1 = g + 1 := ⟨f1 - 1, by omega⟩
      obtain ⟨g2, rfl⟩ : ∃ g, f2 = g + 1 := ⟨f2 - 1, by omega⟩
      cases r with
      | SequentialScan headers records => rfl
      | Selection sel rel => simp [Rel.size] at hr
      | Projection items rel => simp [Rel.size] at hr
  | succ n ih =>
      intro f1 f2 r hr h1 h2
      obtain ⟨g1, rfl⟩ : ∃ g, f1 = g + 1 := ⟨f1 - 1, by omega⟩
      obtain ⟨g2, rfl⟩ : ∃ g, f2 = g + 1 := ⟨f2 - 1, by omega⟩
      cases r with
      | SequentialScan headers records => rfl
      | Selection sel rel =>
          have hs : rel.size ≤ n := by simp only [Rel.size] at hr; omega
          have hg1 : rel.size < g1 := by simp only [Rel.size] at h1; omega
          have hg2 : rel.size < g2 := by simp only [Rel.size] at h2; omega
          have hch : nextF g1 rel = nextF g2 rel := ih g1 g2 rel hs hg1 hg2
          simp only [nextF]
          rw [hch]
          cases hc : nextF g2 rel with
          | error msg => rfl
          | ok t =>
              obtain ⟨o1, rel2, d1⟩ := t
              cases o1 with
              | none => rfl
              | some row1 =>
                  have hsize2 : rel2.size < rel.size :=
                    (nextF_size g2 rel _ rel2 d1 hc).2 row1 rfl
                  have hloop : nextF g1 (.Selection sel rel2) = nextF g2 (.Selection sel rel2) := by
                    refine ih g1 g2 _ ?_ ?_ ?_ <;> simp only [Rel.size] <;> omega
                  simp only []
                  cases h6 : attributes rel2 with
                  | error msg => simp [h6]
                  | ok attrs =>
                      simp only [h6]
                      cases h7 : eval_expr_on_row sel attrs row1 with
                      | error msg => simp [h7]
                      | ok v =>
                          simp only [h7]
                          by_cases h4 : eval_value_as_bool v
                          · rw [if_pos h4, if_pos h4]
                          · rw [if_neg h4, if_neg h4, hloop]
      | Projection items rel =>
          have hs : rel.size ≤ n := by simp only [Rel.size] at hr; omega
          have hg1 : rel.size < g1 := by simp only [Rel.size] at h1; omega
          have hg2 : rel.size < g2 := by simp only [Rel.size] at h2; omega
          have hch : nextF g1 rel = nextF g2 rel := ih g1 g2 rel hs hg1 hg2
          simp only [nextF]
          rw [hch]

theorem nextF_eq_next (fuel : Nat) (r : Rel) (h : r.size < fuel) :
    nextF fuel r = r.next :=
  nextF_congr_aux r.size fuel (r.size + 1) r le_rfl h (Nat.lt_succ_self _)

theorem nextF_Selection_unfold (fuel : Nat) (sel : Expr) (rel : Rel) :
    nextF (fuel + 1) (.Selection sel rel) =
      match nextF fuel rel with
      | .error msg => .error msg
      | .ok (none, rel2, d) => .ok (none, .Selection sel rel2, d)
      | .ok (some row, rel2, d) =>
          match attributes rel2 with
          | .error msg => .error msg
          | .ok attrs =>
              match eval_expr_on_row sel attrs row with
              | .error msg => .error msg
              | .ok v =>
                  if eval_value_as_bool v then .ok (some row, .Selection sel rel2, d)
                  else
                    match nextF fuel (.Selection sel rel2) with
                    | .error msg => .error msg
                    | .ok (item, st, d2) => .ok (item, st, d ++ d2) := rfl

theorem nextF_Projection_unfold (fuel : Nat) (items : List SelectItem) (rel : Rel) :
    nextF (fuel + 1) (.Projection items rel) =
      match attributes rel with
      | .error msg => .error msg
      | .ok relAttrs =>
          match nextF fuel rel with
          | .error msg => .error msg
          | .ok (none, rel2, d) => .ok (none, .Projection items rel2, d)
          | .ok (some row, rel2, d) =>
              match project_row items relAttrs row with
              | .error msg => .error msg
              | .ok item => .ok (some item, .Projection items rel2, d) := rfl

theorem next_scan_nil (headers : List String) :
    (Rel.SequentialScan headers []).next = .ok (none, .SequentialScan headers [], []) := rfl

theorem next_scan_ok (headers fields : List String) (rest : List RawRecord)
    (h : fields.length = headers.length) :
    (Rel.SequentialScan headers (.ok fields :: rest)).next =
      .ok (some (fields.map infer), .SequentialScan headers rest, []) := by
  show nextF (rest.length + 1 + 1) (.SequentialScan headers (.ok fields :: rest)) = _
  simp only [nextF]
  rw [if_pos h]

theorem next_scan_unequal (headers fields : List String) (rest : List RawRecord)
    (h : fields.length ≠ headers.length) :
    (Rel.SequentialScan headers (.ok fields :: rest)).next =
      .ok (none, .SequentialScan headers rest,
        [unequal_lengths_error headers.length fields.length]) := by
  show nextF (rest.length + 1 + 1) (.SequentialScan headers (.ok fields :: rest)) = _
  simp only [nextF]
  rw [if_neg h]

theorem next_scan_err (headers : List String) (msg : String) (rest : List RawRecord) :
    (Rel.SequentialScan headers (.err msg :: rest)).next =
      .ok (none, .SequentialScan headers rest, [msg]) := rfl

theorem next_Selection_child_error (sel : Expr) (rel : Rel) (msg : String)
    (h : rel.next = .error msg) :
    (Rel.Selection sel rel).next = .error msg := by
  have h' : nextF (rel.size + 1) rel = .error msg := h
  show nextF (rel.size + 1 + 1) (.Selection sel rel) = .error msg
  rw [nextF_Selection_unfold, h']

theorem next_Selection_end (sel : Expr) (rel rel2 : Rel) (d : List String)
    (h : rel.next = .ok (none, rel2, d)) :
    (Rel.Selection sel rel).next = .ok (none, .Selection sel rel2, d) := by
  have h' : nextF (rel.size + 1) rel = .ok (none, rel2, d) := h
  show nextF (rel.size + 1 + 1) (.Selection sel rel) = _
  rw [nextF_Selection_unfold, h']

theorem next_Selection_true (sel : Expr) (rel rel2 : Rel) (row : List Value)
    (d attrs : List String) (v : Value)
    (h1 : rel.next = .ok (some row, rel2, d))
    (h2 : attributes rel2 = .ok attrs)
    (h3 : eval_expr_on_row sel attrs row = .ok v)
    (h4 : eval_value_as_bool v = true) :
    (Rel.Selection sel rel).next = .ok (some row, .Selection sel rel2, d) := by
  have h1' : nextF (rel.size + 1) rel = .ok (some row, rel2, d) := h1
  show nextF (rel.size + 1 + 1) (.Selection sel rel) = _
  rw [nextF_Selection_unfold, h1']
  simp only []
  rw [h2]
  simp only []
  rw [h3]
  simp only []
  rw [if_pos h4]

theorem next_Selection_false_ok (sel : Expr) (rel rel2 st : Rel) (row : List Value)
    (d attrs : List String) (v : Value) (o : Option (List Value)) (d2 : List String)
    (h1 : rel.next = .ok (some row, rel2, d))
    (h2 : attributes rel2 = .ok attrs)
    (h3 : eval_expr_on_row sel attrs row = .ok v)
    (h4 : eval_value_as_bool v = false)
    (h5 : (Rel.Selection sel rel2).next = .ok (o, st, d2)) :
    (Rel.Selection sel rel).next = .ok (o, st, d ++ d2) := by
  have h1' : nextF (rel.size + 1) rel = .ok (some row, rel2, d) := h1
  have hsz : rel2.size < rel.size := (nextF_size _ _ _ _ _ h1').2 row rfl
  have hl : nextF (rel.size + 1) (.Selection sel rel2) = (Rel.Selection sel rel2).next :=
    nextF_eq_next _ _ (by simp only [Rel.size]; omega)
  show nextF (rel.size + 1 + 1) (.Selection sel rel) = _
  rw [nextF_Selection_unfold, h1']
  simp only []
  rw [h2]
  simp only []
  rw [h3]
  simp only []
  rw [if_neg (by simp [h4]), hl, h5]

theorem next_Selection_false_error (sel : Expr) (rel rel2 : Rel) (row : List Value)
    (d attrs : List String) (v : Value) (msg : String)
    (h1 : rel.next = .ok (some row, rel2, d))
    (h2 : attributes rel2 = .ok attrs)
    (h3 : eval_expr_on_row sel attrs row = .ok v)
    (h4 : eval_value_as_bool v = false)
    (h5 : (Rel.Selection sel rel2).next = .error msg) :
    (Rel.Selection sel rel).next = .error msg := by
  have h1' : nextF (rel.size + 1) rel = .ok (some row, rel2, d) := h1
  have hsz : rel2.size < rel.size := (nextF_size _ _ _ _ _ h1').2 row rfl
  have hl : nextF (rel.size + 1) (.Selection sel rel2) = (Rel.Selection sel rel2).next :=
    nextF_eq_next _ _ (by simp only [Rel.size]; omega)
  show nextF (rel.size + 1 + 1) (.Selection sel rel) = _
  rw [nextF_Selection_unfold, h1']
  simp only []
  rw [h2]
  simp only []
  rw [h3]
  simp only []
  rw [if_neg (by simp [h4]), hl, h5]

theorem next_Selection_attrs_error (sel : Expr) (rel rel2 : Rel) (row : List Value)
    (d : List String) (msg : String)
    (h1 : rel.next = .ok (some row, rel2, d))
    (h2 : attributes rel2 = .error msg) :
    (Rel.Selection sel rel).next = .error msg := by
  have h1' : nextF (rel.size + 1) rel = .ok (some row, rel2, d) := h1
  show nextF (rel.size + 1 + 1) (.Selection sel rel) = _
  rw [nextF_Selection_unfold, h1']
  simp only []
  rw [h2]

theorem next_Selection_eval_error (sel : Expr) (rel rel2 : Rel) (row : List Value)
    (d attrs : List String) (msg : String)
    (h1 : rel.next = .ok (some row, rel2, d))
    (h2 : attributes rel2 = .ok attrs)
    (h3 : eval_expr_on_row sel attrs row = .error msg) :
    (Rel.Selection sel rel).next = .error msg := by
  have h1' : nextF (rel.size + 1) rel = .ok (some row, rel2, d) := h1
  show nextF (rel.size + 1 + 1) (.Selection sel rel) = _
  rw [nextF_Selection_unfold, h1']
  simp only []
  rw [h2]
  simp only []
  rw [h3]

theorem next_Projection_attrs_error (items : List SelectItem) (rel : Rel) (msg : String)
    (h : attributes rel = .error msg) :
    (Rel.Projection items rel).next = .error msg := by
  show nextF (rel.size + 1 + 1) (.Projection items rel) = _
  rw [nextF_Projection_unfold, h]

theorem next_Projection_child_error (items : List SelectItem) (rel : Rel)
    (relAttrs : List String) (msg : String)
    (h0 : attributes rel = .ok relAttrs)
    (h : rel.next = .error msg) :
    (Rel.Projection items rel).next = .error msg := by
  have h' : nextF (rel.size + 1) rel = .error msg := h
  show nextF (rel.size + 1 + 1) (.Projection items rel) = _
  rw [nextF_Projection_unfold, h0]
  simp only []
  rw [h']

theorem next_Projection_end (items : List SelectItem) (rel rel2 : Rel)
    (relAttrs : List String) (d : List String)
    (h0 : attributes rel = .ok relAttrs)
    (h : rel.next = .ok (none, rel2, d)) :
    (Rel.Projection items rel).next = .ok (none, .Projection items rel2, d) := by
  have h' : nextF (rel.size + 1) rel = .ok (none, rel2, d) := h
  show nextF (rel.size + 1 + 1) (.Projection items rel) = _
  rw [nextF_Projection_unfold, h0]
  simp only []
  rw [h']

theorem next_Projection_some (items : List SelectItem) (rel rel2 : Rel)
    (relAttrs : List String) (row item : List Value) (d : List String)
    (h0 : attributes rel = .ok relAttrs)
    (h1 : rel.next = .ok (some row, rel2, d))
    (h2 : project_row items relAttrs row = .ok item) :
    (Rel.Projection items rel).next = .ok (some item, .Projection items rel2, d) := by
  have h1' : nextF (rel.size + 1) rel = .ok (some row, rel2, d) := h1
  show nextF (rel.size + 1 + 1) (.Projection items rel) = _
  rw [nextF_Projection_unfold, h0]
  simp only []
  rw [h1']
  simp only []
  rw [h2]

theorem project_row_names (relAttrs : List String) (row : List Value) :
    ∀ (items : List SelectItem) (cellss : List (List Value)),
      mapExcept (select_item_cells relAttrs row) items = .ok cellss →
      ∃ namess : List (List String),
        mapExcept (attribute_names (.ok relAttrs)) items = .ok namess ∧
        cellss.map List.length = namess.map List.length := by
  intro items
  induction items with
  | nil =>
      intro cellss h
      simp only [mapExcept] at h
      injection h with h
      exact ⟨[], rfl, by simp [← h]⟩
  | cons item rest ih =>
      intro cellss h
      simp only [mapExcept] at h
      cases hfa : select_item_cells relAttrs row item with
      | error msg => rw [hfa] at h; exact absurd h (by simp)
      | ok cells =>
          rw [hfa] at h
          cases hms : mapExcept (select_item_cells relAttrs row) rest with
          | error msg => rw [hms] at h; exact absurd h (by simp)
          | ok cellss2 =>
              rw [hms] at h
              injection h with h
              subst h
              obtain ⟨namess2, hn1, hn2⟩ := ih cellss2 hms
              have hitem : ∃ names, attribute_names (.ok relAttrs) item = .ok names ∧
                  cells.length = names.length := by
                cases item with
                | Wildcard =>
                    refine ⟨relAttrs, rfl, ?_⟩
                    simp only [select_item_cells] at hfa
                    exact mapExcept_length _ _ _ hfa
                | ExprWithAlias e a =>
                    simp only [select_item_cells] at hfa
                    cases hl : lookup_cell relAttrs row a with
                    | error msg => rw [hl] at hfa; exact absurd hfa (by simp [Except.map])
                    | ok v =>
                        rw [hl] at hfa
                        simp only [Except.map] at hfa
                        injection hfa with hfa
                        exact ⟨[a], rfl, by simp [← hfa]⟩
                | UnnamedExpr e =>
                    cases e with
                    | Identifier ident =>
                        simp only [select_item_cells] at hfa
                        cases hl : lookup_cell relAttrs row ident with
                        | error msg => rw [hl] at hfa; exact absurd hfa (by simp [Except.map])
                        | ok v =>
                            rw [hl] at hfa
                            simp only [Except.map] at hfa
                            injection hfa with hfa
                            exact ⟨[ident], rfl, by simp [← hfa]⟩
                    | Value lit => exact absurd hfa (by simp [select_item_cells])
                    | BinaryOp l op r => exact absurd hfa (by simp [select_item_cells])
              obtain ⟨names, hi1, hi2⟩ := hitem
              refine ⟨names :: namess2, ?_, ?_⟩
              · simp only [mapExcept, hi1, hn1]
              · simp [hi2, hn2]

theorem project_row_length (items : List SelectItem) (relAttrs : List String)
    (row item : List Value)
    (h : project_row items relAttrs row = .ok item) :
    ∃ names : List String,
      (mapExcept (attribute_names (.ok relAttrs)) items).map List.flatten = .ok names ∧
      item.length = names.length := by
  simp only [project_row] at h
  cases hm : mapExcept (select_item_cells relAttrs row) items with
  | error msg => rw [hm] at h; exact absurd h (by simp [Except.map])
  | ok cellss =>
      rw [hm] at h
      simp only [Except.map] at h
      injection h with h
      obtain ⟨namess, hn1, hn2⟩ := project_row_names relAttrs row items cellss hm
      refine ⟨namess.flatten, by simp [hn1, Except.map], ?_⟩
      subst h
      have h1 : cellss.flatten.length = (cellss.map List.length).sum := by
        simp [List.length_flatten]
      have h2 : namess.flatten.length = (namess.map List.length).sum := by
        simp [List.length_flatten]
      rw [h1, h2, hn2]

theorem nextF_row_length :
    ∀ (fuel : Nat) (r : Rel) (row : List Value) (st : Rel) (d : List String),
      nextF fuel r = .ok (some row, st, d) →
      ∃ attrs, attributes r = .ok attrs ∧ row.length = attrs.length := by
  intro fuel
  induction fuel with
  | zero => intro r row st d h; exact absurd h (by simp [nextF])
  | succ fuel ih =>
      intro r row st d h
      cases r with
      | SequentialScan headers records =>
          cases records with
          | nil =>
              simp only [nextF, Except.ok.injEq, Prod.mk.injEq] at h
              exact absurd h.1 (by simp)
          | cons rec rest =>
              cases rec with
              | ok fields =>
                  simp only [nextF] at h
                  by_cases hlen : fields.length = headers.length
                  · rw [if_pos hlen] at h
                    simp only [Except.ok.injEq, Prod.mk.injEq] at h
                    obtain ⟨h1, _, _⟩ := h
                    injection h1.symm with h1
                    refine ⟨headers, rfl, ?_⟩
                    rw [h1]
                    simp [hlen]
                  · rw [if_neg hlen] at h
                    simp only [Except.ok.injEq, Prod.mk.injEq] at h
                    exact absurd h.1 (by simp)
              | err msg =>
                  simp only [nextF, Except.ok.injEq, Prod.mk.injEq] at h
                  exact absurd h.1 (by simp)
      | Selection sel rel =>
          simp only [nextF] at h
          cases h1 : nextF fuel rel with
          | error msg => rw [h1] at h; exact absurd h (by simp)
          | ok t =>
              obtain ⟨o1, rel2, d1⟩ := t
              rw [h1] at h
              cases o1 with
              | none =>
                  simp only [Except.ok.injEq, Prod.mk.injEq] at h
                  exact absurd h.1 (by simp)
              | some row1 =>
                  simp only [] at h
                  cases h2 : attributes rel2 with
                  | error msg => exact absurd h (by simp [h2])
                  | ok attrs =>
                      simp only [h2] at h
                      cases h3 : eval_expr_on_row sel attrs row1 with
                      | error msg => exact absurd h (by simp [h3])
                      | ok v =>
                          simp only [h3] at h
                          by_cases h4 : eval_value_as_bool v
                          · rw [if_pos h4] at h
                            simp only [Except.ok.injEq, Prod.mk.injEq] at h
                            obtain ⟨hrow, _, _⟩ := h
                            injection hrow.symm with hrow
                            subst hrow
                            exact ih rel row rel2 d1 h1
                          · rw [if_neg h4] at h
                            cases h5 : nextF fuel (.Selection sel rel2) with
                            | error msg => rw [h5] at h; exact absurd h (by simp)
                            | ok t2 =>
                                obtain ⟨o2, st2, d2⟩ := t2
                                rw [h5] at h
                                simp only [Except.ok.injEq, Prod.mk.injEq] at h
                                obtain ⟨hrow, _, _⟩ := h
                                subst hrow
                                obtain ⟨attrs2, hA, hL⟩ := ih (.Selection sel rel2) row st2 d2 h5
                                have hpres : attributes rel2 = attributes rel :=
                                  nextF_attributes fuel rel _ rel2 d1 h1
                                refine ⟨attrs2, ?_, hL⟩
                                show attributes rel = .ok attrs2
                                rw [← hpres]
                                exact hA
      | Projection items rel =>
          simp only [nextF] at h
          cases h0 : attributes rel with
          | error msg => rw [h0] at h; exact absurd h (by simp)
          | ok relAttrs =>
              rw [h0] at h
              simp only [] at h
              cases h1 : nextF fuel rel with
              | error msg => exact absurd h (by simp [h1])
              | ok t =>
                  obtain ⟨o1, rel2, d1⟩ := t
                  rw [h1] at h
                  cases o1 with
                  | none =>
                      simp only [Except.ok.injEq, Prod.mk.injEq] at h
                      exact absurd h.1 (by simp)
                  | some row1 =>
                      simp only [] at h
                      cases h2 : project_row items relAttrs row1 with
                      | error msg => exact absurd h (by simp [h2])
                      | ok item =>
                          simp only [h2] at h
                          simp only [Except.ok.injEq, Prod.mk.injEq] at h
                          obtain ⟨hrow, _, _⟩ := h
                          injection hrow.symm with hrow
                          subst hrow
                          obtain ⟨names, hN1, hN2⟩ := project_row_length items relAttrs row1 row h2
                          refine ⟨names, ?_, hN2⟩
                          simp only [attributes, h0]
                          exact hN1

theorem next_Projection_row_error (items : List SelectItem) (rel rel2 : Rel)
    (relAttrs : List String) (row : List Value) (d : List String) (msg : String)
    (h0 : attributes rel = .ok relAttrs)
    (h1 : rel.next = .ok (some row, rel2, d))
    (h2 : project_row items relAttrs row = .error msg) :
    (Rel.Projection items rel).next = .error msg := by
  have h1' : nextF (rel.size + 1) rel = .ok (some row, rel2, d) := h1
  show nextF (rel.size + 1 + 1) (.Projection items rel) = _
  rw [nextF_Projection_unfold, h0]
  simp only []
  rw [h1']
  simp only []
  rw [h2]

theorem lookup_cell_self (attrs : List String) (row : List Value)
    (hnd : attrs.Nodup) (i : Nat) (h : i < attrs.length) (h' : i < row.length) :
    lookup_cell attrs row attrs[i] = .ok row[i] := by
  simp only [lookup_cell]
  rw [position_self_nodup attrs hnd i h]
  simp only []
  rw [List.getElem?_eq_getElem h']

theorem wildcard_cells_id (attrs : List String) (row : List Value)
    (hnd : attrs.Nodup) (hlen : row.length = attrs.length) :
    mapExcept (fun attr => lookup_cell attrs row attr) attrs = .ok row := by
  refine mapExcept_ok_of_get _ attrs row hlen.symm ?_
  intro i h h'
  exact lookup_cell_self attrs row hnd i h h'

theorem project_row_wildcard (attrs : List String) (row : List Value)
    (hnd : attrs.Nodup) (hlen : row.length = attrs.length) :
    project_row [.Wildcard] attrs row = .ok row := by
  simp only [project_row, mapExcept, select_item_cells]
  rw [wildcard_cells_id attrs row hnd hlen]
  simp [Except.map]

theorem attributes_Projection_wildcard (rel : Rel) :
    attributes (.Projection [.Wildcard] rel) = attributes rel := by
  simp only [attributes, mapExcept, attribute_names]
  cases attributes rel with
  | error msg => simp [Except.map]
  | ok attrs => simp [Except.map]

/-- C1: Text-to-Value inference is deterministic and total, and applies
variants in the fixed order boolean, then integer, then string: a cell
that is exactly true or false (case-sensitive) becomes Boolean,
otherwise a cell parseable as a signed 64-bit integer becomes Integer
(so 007 becomes Integer 7), and any other text, for example TRUE,
becomes a String holding the original text verbatim. -/
theorem C1_infer_fixed_order :
    (infer "true" = .Boolean true ∧ infer "false" = .Boolean false) ∧
    (∀ (s : String) (i : Int), s ≠ "true" → s ≠ "false" → parseI64 s = some i →
      infer s = .Integer i) ∧
    (∀ s : String, s ≠ "true" → s ≠ "false" → parseI64 s = none →
      infer s = .String s) ∧
    infer "007" = .Integer 7 ∧ infer "TRUE" = .String "TRUE" := by
  refine ⟨⟨rfl, rfl⟩, ?_, ?_, rfl, rfl⟩
  · intro s i h1 h2 h3
    simp [infer, parseBool, h1, h2, h3]
  · intro s h1 h2 h3
    simp [infer, parseBool, h1, h2, h3]

/-- C1 witness: the theorem applied to the concrete cell text 42, whose
integer parse is discharged by computation. -/
theorem C1_witness : infer "42" = .Integer 42 :=
  C1_infer_fixed_order.2.1 "42" 42 (by decide) (by decide) (by rfl)

/-- C2: for every child relation and boolean expression, Selection next
pulls child rows repeatedly, discards each row whose expression value
is non-truthy, returns the first truthy row unchanged, or signals end
of relation when the child ends; truthiness of a Value is Boolean to
itself, Integer to value not equal to zero, String to length greater
than zero. -/
theorem C2_selection_next_behavior :
    (∀ (sel : Expr) (rel rel2 : Rel) (d : List String),
      rel.next = .ok (none, rel2, d) →
      (Rel.Selection sel rel).next = .ok (none, .Selection sel rel2, d)) ∧
    (∀ (sel : Expr) (rel rel2 : Rel) (row : List Value) (d attrs : List String) (v : Value),
      rel.next = .ok (some row, rel2, d) →
      attributes rel2 = .ok attrs →
      eval_expr_on_row sel attrs row = .ok v →
      eval_value_as_bool v = true →
      (Rel.Selection sel rel).next = .ok (some row, .Selection sel rel2, d)) ∧
    (∀ (sel : Expr) (rel rel2 st : Rel) (row : List Value) (d attrs : List String)
        (v : Value) (o : Option (List Value)) (d2 : List String),
      rel.next = .ok (some row, rel2, d) →
      attributes rel2 = .ok attrs →
      eval_expr_on_row sel attrs row = .ok v →
      eval_value_as_bool v = false →
      (Rel.Selection sel rel2).next = .ok (o, st, d2) →
      (Rel.Selection sel rel).next = .ok (o, st, d ++ d2)) ∧
    (∀ b : Bool, eval_value_as_bool (.Boolean b) = b) ∧
    (∀ i : Int, eval_value_as_bool (.Integer i) = decide (i ≠ 0)) ∧
    (∀ s : String, eval_value_as_bool (.String s) = decide (s.length > 0)) :=
  ⟨next_Selection_end, next_Selection_true, next_Selection_false_ok,
    fun _ => rfl, fun _ => rfl, fun _ => rfl⟩

/-- C2 witness: the theorem applied to a one-row scan with the truthy
predicate referencing column a. -/
theorem C2_witness :
    (Rel.Selection (.Identifier "a") (.SequentialScan ["a"] [.ok ["1"]])).next =
      .ok (some [.Integer 1], .Selection (.Identifier "a") (.SequentialScan ["a"] []), []) :=
  C2_selection_next_behavior.2.1 (.Identifier "a") (.SequentialScan ["a"] [.ok ["1"]])
    (.SequentialScan ["a"] []) [.Integer 1] [] ["a"] (.Integer 1)
    (by rfl) (by rfl) (by rfl) (by rfl)

/-- C3: every row produced by any relation (scan, selection or
projection) has exactly as many cells as the attribute list the
relation reports at the moment the row is produced. -/
theorem C3_row_arity_invariant (r : Rel) (row : List Value) (st : Rel) (d : List String)
    (h : r.next = .ok (some row, st, d)) :
    ∃ attrs, attributes st = .ok attrs ∧ attributes r = .ok attrs ∧
      row.length = attrs.length := by
  have h' : nextF (r.size + 1) r = .ok (some row, st, d) := h
  obtain ⟨attrs, hA, hL⟩ := nextF_row_length (r.size + 1) r row st d h'
  have hpres := nextF_attributes (r.size + 1) r _ st d h'
  exact ⟨attrs, hpres.trans hA, hA, hL⟩

/-- C3 witness: the invariant applied to a scan of header a, b
producing the row Integer 1, Boolean true. -/
theorem C3_witness :
    ∃ attrs, attributes (Rel.SequentialScan ["a", "b"] []) = .ok attrs ∧
      attributes (Rel.SequentialScan ["a", "b"] [.ok ["1", "true"]]) = .ok attrs ∧
      ([Value.Integer 1, Value.Boolean true] : List Value).length = attrs.length :=
  C3_row_arity_invariant (.SequentialScan ["a", "b"] [.ok ["1", "true"]])
    [.Integer 1, .Boolean true] (.SequentialScan ["a", "b"] []) [] (by rfl)

/-- C4 counterexample: over a scan whose header has the duplicate
attribute names a, a, the wildcard projection copies the first column
named a twice, so the produced row differs from the child row, refuting
the claim that a wildcard projection passes every child row through
unchanged for every child relation. -/
theorem C4_counterexample :
    (Rel.SequentialScan ["a", "a"] [.ok ["1", "2"]]).next =
      .ok (some [.Integer 1, .Integer 2], .SequentialScan ["a", "a"] [], []) ∧
    (Rel.Projection [.Wildcard] (.SequentialScan ["a", "a"] [.ok ["1", "2"]])).next =
      .ok (some [.Integer 1, .Integer 1],
        .Projection [.Wildcard] (.SequentialScan ["a", "a"] []), []) ∧
    ([Value.Integer 1, Value.Integer 1] : List Value) ≠ [.Integer 1, .Integer 2] :=
  ⟨rfl, rfl, by decide⟩

/-- C4 amended: a bare wildcard projection always reproduces the child
attribute list in child order, and whenever the child attribute names
at the state after the pull are pairwise distinct, it returns each
produced child row unchanged (and ends exactly when the child ends);
with duplicated child attribute names, each output cell holds the value
of the first column bearing that name. -/
theorem C4_wildcard_projection_amended :
    (∀ rel : Rel, attributes (.Projection [.Wildcard] rel) = attributes rel) ∧
    (∀ (rel rel2 : Rel) (row : List Value) (d attrs : List String),
      rel.next = .ok (some row, rel2, d) →
      attributes rel2 = .ok attrs →
      attrs.Nodup →
      (Rel.Projection [.Wildcard] rel).next =
        .ok (some row, .Projection [.Wildcard] rel2, d)) ∧
    (∀ (rel rel2 : Rel) (d attrs : List String),
      attributes rel = .ok attrs →
      rel.next = .ok (none, rel2, d) →
      (Rel.Projection [.Wildcard] rel).next =
        .ok (none, .Projection [.Wildcard] rel2, d)) := by
  refine ⟨attributes_Projection_wildcard, ?_, ?_⟩
  · intro rel rel2 row d attrs h1 h2 hnd
    have h1' : nextF (rel.size + 1) rel = .ok (some row, rel2, d) := h1
    have hpres : attributes rel2 = attributes rel := nextF_attributes _ _ _ _ _ h1'
    have h0 : attributes rel = .ok attrs := by rw [← hpres]; exact h2
    obtain ⟨attrs0, hA, hL⟩ := nextF_row_length (rel.size + 1) rel row rel2 d h1'
    have heq : attrs0 = attrs := by
      rw [hA] at h0
      injection h0
    subst heq
    exact next_Projection_some [.Wildcard] rel rel2 attrs0 row row d h0 h1
      (project_row_wildcard attrs0 row hnd hL)
  · intro rel rel2 d attrs h0 h1
    exact next_Projection_end [.Wildcard] rel rel2 attrs d h0 h1

/-- C4 witness: the amended row identity applied to a scan with the
distinct headers x, y. -/
theorem C4_witness :
    (Rel.Projection [.Wildcard] (.SequentialScan ["x", "y"] [.ok ["1", "true"]])).next =
      .ok (some [.Integer 1, .Boolean true],
        .Projection [.Wildcard] (.SequentialScan ["x", "y"] []), []) :=
  C4_wildcard_projection_amended.2.1 (.SequentialScan ["x", "y"] [.ok ["1", "true"]])
    (.SequentialScan ["x", "y"] []) [.Integer 1, .Boolean true] [] ["x", "y"]
    (by rfl) (by rfl) (by decide)

/-- C5 counterexample: a FROM clause naming two sources (the second of
which even carries a join) does not abort: the planner silently builds
the plan from the first source, refuting the claim that more than one
FROM source aborts the process. -/
theorem C5_counterexample :
    query_as_relation exampleFs qTwoSources =
      .ok (.Projection [.Wildcard] (.SequentialScan ["a"] [.ok ["1"]])) := rfl

/-- C5 amended: the planner requires at least one FROM source and that
the first source carries no joins: an empty FROM aborts, a join on the
first source aborts, and all FROM sources after the first (together
with any joins on them) are ignored, the plan being built from the
first source alone. -/
theorem C5_planner_from_amended :
    (∀ (fs : Filesystem) (s : Select), s.from_ = [] →
      query_as_relation fs ⟨.SelectBody s⟩ = .error "FROM must be provided.") ∧
    (∀ (fs : Filesystem) (s : Select) (t : TableWithJoins) (rest : List TableWithJoins)
        (j : Join) (js : List Join),
      s.from_ = t :: rest → t.joins = j :: js →
      query_as_relation fs ⟨.SelectBody s⟩ = .error "JOIN is not supported.") ∧
    (∀ (fs : Filesystem) (proj : List SelectItem) (t : TableWithJoins)
        (rest : List TableWithJoins) (sel : Option Expr),
      query_as_relation fs ⟨.SelectBody ⟨proj, t :: rest, sel⟩⟩ =
        query_as_relation fs ⟨.SelectBody ⟨proj, [t], sel⟩⟩) := by
  refine ⟨?_, ?_, ?_⟩
  · intro fs s h
    simp [query_as_relation, h]
  · intro fs s t rest j js h1 h2
    simp [query_as_relation, h1, h2]
  · intro fs proj t rest sel
    simp [query_as_relation]

/-- C5 witness: the amended theorem applied to a SELECT with an empty
FROM clause. -/
theorem C5_witness :
    query_as_relation exampleFs ⟨.SelectBody ⟨[.Wildcard], [], none⟩⟩ =
      .error "FROM must be provided." :=
  C5_planner_from_amended.1 exampleFs ⟨[.Wildcard], [], none⟩ rfl

/-- C6: AND and OR evaluate both operand subexpressions unconditionally
with no short-circuit, then coerce both results to truthiness; in
particular an aborting right operand aborts even when the left operand
already decides the result. -/
theorem C6_no_short_circuit :
    (∀ (left right : Expr) (attrs : List String) (row : List Value) (lv : Value)
        (msg : String),
      eval_expr_on_row left attrs row = .ok lv →
      eval_expr_on_row right attrs row = .error msg →
      eval_expr_on_row (.BinaryOp left .And right) attrs row = .error msg ∧
      eval_expr_on_row (.BinaryOp left .Or right) attrs row = .error msg) ∧
    (∀ (left right : Expr) (attrs : List String) (row : List Value) (lv rv : Value),
      eval_expr_on_row left attrs row = .ok lv →
      eval_expr_on_row right attrs row = .ok rv →
      eval_expr_on_row (.BinaryOp left .And right) attrs row =
        .ok (.Boolean (eval_value_as_bool lv && eval_value_as_bool rv)) ∧
      eval_expr_on_row (.BinaryOp left .Or right) attrs row =
        .ok (.Boolean (eval_value_as_bool lv || eval_value_as_bool rv))) := by
  constructor
  · intro left right attrs row lv msg h1 h2
    constructor <;> simp [eval_expr_on_row, h1, h2]
  · intro left right attrs row lv rv h1 h2
    constructor <;> simp [eval_expr_on_row, h1, h2]

/-- C6 witness: with a false left operand the AND still aborts on an
unresolvable right operand. -/
theorem C6_witness :
    eval_expr_on_row (.BinaryOp (.Value (.Boolean false)) .And (.Identifier "missing")) [] [] =
      .error "called Option.unwrap on a None value" :=
  (C6_no_short_circuit.1 (.Value (.Boolean false)) (.Identifier "missing") [] []
    (.Boolean false) "called Option.unwrap on a None value" (by rfl) (by rfl)).1

/-- C7: the greater-than operator is integer-only and never coerces:
with two Integer operands the result is Boolean of the integer
comparison, and if either operand evaluates to a non-Integer value the
process aborts. -/
theorem C7_gt_integer_only :
    (∀ (left right : Expr) (attrs : List String) (row : List Value) (a b : Int),
      eval_expr_on_row left attrs row = .ok (.Integer a) →
      eval_expr_on_row right attrs row = .ok (.Integer b) →
      eval_expr_on_row (.BinaryOp left .Gt right) attrs row =
        .ok (.Boolean (decide (a > b)))) ∧
    (∀ (left right : Expr) (attrs : List String) (row : List Value) (lv rv : Value),
      eval_expr_on_row left attrs row = .ok lv →
      eval_expr_on_row right attrs row = .ok rv →
      (∀ i : Int, lv ≠ .Integer i) →
      eval_expr_on_row (.BinaryOp left .Gt right) attrs row = .error "not implemented") ∧
    (∀ (left right : Expr) (attrs : List String) (row : List Value) (a : Int) (rv : Value),
      eval_expr_on_row left attrs row = .ok (.Integer a) →
      eval_expr_on_row right attrs row = .ok rv →
      (∀ i : Int, rv ≠ .Integer i) →
      eval_expr_on_row (.BinaryOp left .Gt right) attrs row = .error "not implemented") := by
  refine ⟨?_, ?_, ?_⟩
  · intro left right attrs row a b h1 h2
    simp [eval_expr_on_row, h1, h2]
  · intro left right attrs row lv rv h1 h2 hni
    cases lv with
    | Integer i => exact absurd rfl (hni i)
    | String s => simp [eval_expr_on_row, h1, h2]
    | Boolean b => simp [eval_expr_on_row, h1, h2]
  · intro left right attrs row a rv h1 h2 hni
    cases rv with
    | Integer i => exact absurd rfl (hni i)
    | String s => simp [eval_expr_on_row, h1, h2]
    | Boolean b => simp [eval_expr_on_row, h1, h2]

/-- C7 witness: comparing the integer literals 2 and 1 yields Boolean
true. -/
theorem C7_witness :
    eval_expr_on_row (.BinaryOp (.Value (.Number "2")) .Gt (.Value (.Number "1"))) [] [] =
      .ok (.Boolean true) :=
  C7_gt_integer_only.1 (.Value (.Number "2")) (.Value (.Number "1")) [] [] 2 1
    (by rfl) (by rfl)

/-- C8: a malformed individual CSV data record is reported to the
diagnostic stream and turns that call into end of relation: the call
returns no row, reads no later record, and the process does not
abort. -/
theorem C8_malformed_record_truncates :
    (∀ (headers : List String) (msg : String) (rest : List RawRecord),
      (Rel.SequentialScan headers (.err msg :: rest)).next =
        .ok (none, .SequentialScan headers rest, [msg])) ∧
    (∀ (headers fields : List String) (rest : List RawRecord),
      fields.length ≠ headers.length →
      (Rel.SequentialScan headers (.ok fields :: rest)).next =
        .ok (none, .SequentialScan headers rest,
          [unequal_lengths_error headers.length fields.length])) :=
  ⟨next_scan_err, next_scan_unequal⟩

/-- C8 witness: a two-field record under a one-column header is
reported and ends the call without aborting. -/
theorem C8_witness :
    (Rel.SequentialScan ["a"] [.ok ["1", "2"], .ok ["3"]]).next =
      .ok (none, .SequentialScan ["a"] [.ok ["3"]], [unequal_lengths_error 1 2]) :=
  C8_malformed_record_truncates.2 ["a"] ["1", "2"] [.ok ["3"]] (by decide)

/-- C9 counterexample: a parsed input of two query statements does not
abort: both statements are executed in order, each producing its
output document, refuting the claim that multi-statement input aborts
rather than executing. -/
theorem C9_counterexample :
    run_statements exampleFs [.Query qSelectStar, .Query qSelectStar] =
      .ok [(["a"], [["1"]]), (["a"], [["1"]])] := rfl

/-- C9 amended: any non-query statement aborts the run when it is
reached, and a run whose input contains one always aborts; an input of
several query statements, however, is executed statement by statement
in order rather than aborting. -/
theorem C9_statements_amended :
    (∀ (fs : Filesystem) (statements : List Statement),
      Statement.other ∈ statements →
      ∃ msg, run_statements fs statements = .error msg) ∧
    (∀ (fs : Filesystem) (s : Statement) (rest : List Statement)
        (doc : List String × List (List String)),
      run_statement fs s = .ok doc →
      run_statements fs (s :: rest) =
        (run_statements fs rest).map (fun docs => doc :: docs)) := by
  constructor
  · intro fs statements
    induction statements with
    | nil => intro hmem; simp at hmem
    | cons s rest ih =>
        intro hmem
        simp only [run_statements, mapExcept]
        cases hs : run_statement fs s with
        | error msg => exact ⟨msg, rfl⟩
        | ok doc =>
            rcases List.mem_cons.mp hmem with h | h
            · rw [← h] at hs
              simp [run_statement] at hs
            · obtain ⟨msg, hmsg⟩ := ih h
              have hmsg' : mapExcept (run_statement fs) rest = .error msg := hmsg
              exact ⟨msg, by simp [hmsg']⟩
  · intro fs s rest doc h
    simp only [run_statements, mapExcept, h]
    cases hr : mapExcept (run_statement fs) rest with
    | error msg => simp [Except.map]
    | ok docs => simp [Except.map]

/-- C9 witness: a run containing a non-query statement aborts. -/
theorem C9_witness :
    ∃ msg, run_statements exampleFs [.other] = .error msg :=
  C9_statements_amended.1 exampleFs [.other] (by simp)

/-- C10: the error-induced end of a scan is not latched: the call on
the malformed record signals end of relation while consuming exactly
that record, and the following call reads the next underlying record
and returns it as a row when it is well formed. -/
theorem C10_scan_error_not_latched (headers fields : List String) (msg : String)
    (rest : List RawRecord) (h : fields.length = headers.length) :
    (Rel.SequentialScan headers (.err msg :: .ok fields :: rest)).next =
      .ok (none, .SequentialScan headers (.ok fields :: rest), [msg]) ∧
    (Rel.SequentialScan headers (.ok fields :: rest)).next =
      .ok (some (fields.map infer), .SequentialScan headers rest, []) :=
  ⟨next_scan_err headers msg (.ok fields :: rest), next_scan_ok headers fields rest h⟩

/-- C10 witness: after the bad record ends one call, the following call
returns the row Integer 7 from the record after it. -/
theorem C10_witness :
    (Rel.SequentialScan ["a"] [.err "bad record", .ok ["7"]]).next =
      .ok (none, .SequentialScan ["a"] [.ok ["7"]], ["bad record"]) ∧
    (Rel.SequentialScan ["a"] [.ok ["7"]]).next =
      .ok (some [.Integer 7], .SequentialScan ["a"] [], []) :=
  C10_scan_error_not_latched ["a"] ["7"] "bad record" [] (by decide)

end SimpleSql
